import Mathlib

/-!
Verification of paritytech/substrate-subxt (metadata.rs and rpc.rs) against its
natural-language specification.

Shallow embedding conventions:
  * Bytes are `Nat` values `< 256`; byte strings are `List Nat`.
  * Machine 64-bit arithmetic is `Nat` arithmetic reduced `% 2^64`.
  * `HashMap` is modelled as an association list where `insert` conses at the
    front and `lookup` finds the first entry, so the latest insert wins,
    matching `HashMap::insert` / `HashMap::get` observational behaviour.
  * Fallible Rust code returning `Result` is modelled with `Except`; a Rust
    `panic!` / `expect` is modelled as `Option.none`.
  * Bounded loops are written with an explicit fuel argument so that every
    definition is structurally recursive and kernel-reducible; each wrapper
    passes fuel strictly larger than the number of iterations the loop can
    perform, so the fuel-exhaustion branch is unreachable.
-/

namespace Subxt

/-! ## 64-bit arithmetic helpers -/

def M64 : Nat := 18446744073709551616

def add64 (a b : Nat) : Nat := (a + b) % M64

def sub64 (a b : Nat) : Nat := (a % M64 + (M64 - b % M64)) % M64

def mul64 (a b : Nat) : Nat := (a * b) % M64

def rotl64 (x r : Nat) : Nat := ((x <<< r) % M64) ||| (x >>> (64 - r))

def rotr64 (x r : Nat) : Nat := (x >>> r) ||| ((x <<< (64 - r)) % M64)

/-- Little-endian interpretation of a byte list as an unsigned integer. -/
def leWord : List Nat → Nat
  | [] => 0
  | b :: bs => b % 256 + 256 * leWord bs

/-- Little-endian serialization of a 64-bit word into eight bytes. -/
def le64Bytes (x : Nat) : List Nat :=
  [x % 256, x / 256 % 256, x / 65536 % 256, x / 16777216 % 256,
   x / 4294967296 % 256, x / 1099511627776 % 256,
   x / 281474976710656 % 256, x / 72057594037927936 % 256]

/-- ASCII bytes of a string (all strings appearing here are ASCII). -/
def strBytes (s : String) : List Nat := s.toList.map Char.toNat

/-! ## xxHash64 (the `twox` family used by substrate-primitives)

Reference implementation of the XXH64 algorithm over byte lists; substrate's
`twox_64` / `twox_128` / `twox_256` concatenate the little-endian digests of
XXH64 runs with seeds 0, 1, 2, 3. -/

def xxP1 : Nat := 0x9E3779B185EBCA87
def xxP2 : Nat := 0xC2B2AE3D27D4EB4F
def xxP3 : Nat := 0x165667B19E3779F9
def xxP4 : Nat := 0x85EBCA77C2B2AE63
def xxP5 : Nat := 0x27D4EB2F165667C5

def xxRound (acc lane : Nat) : Nat :=
  mul64 (rotl64 (add64 acc (mul64 lane xxP2)) 31) xxP1

def xxMergeRound (h v : Nat) : Nat :=
  add64 (mul64 (Nat.xor h (xxRound 0 v)) xxP1) xxP4

/-- Stripe loop: consume 32-byte stripes while at least 32 bytes remain.
The fuel always exceeds the number of stripes, so the 0 case is unreachable. -/
def xxStripes : Nat → Nat → Nat → Nat → Nat → List Nat →
    (Nat × Nat × Nat × Nat × List Nat)
  | 0, v1, v2, v3, v4, bs => (v1, v2, v3, v4, bs)
  | fuel + 1, v1, v2, v3, v4, bs =>
    if 32 ≤ bs.length then
      xxStripes fuel
        (xxRound v1 (leWord (bs.take 8)))
        (xxRound v2 (leWord ((bs.drop 8).take 8)))
        (xxRound v3 (leWord ((bs.drop 16).take 8)))
        (xxRound v4 (leWord ((bs.drop 24).take 8)))
        (bs.drop 32)
    else (v1, v2, v3, v4, bs)

/-- Tail loop: consume 8-byte lanes while at least 8 bytes remain. -/
def xxTail8 : Nat → Nat → List Nat → (Nat × List Nat)
  | 0, h, bs => (h, bs)
  | fuel + 1, h, bs =>
    if 8 ≤ bs.length then
      xxTail8 fuel
        (add64 (mul64 (rotl64 (Nat.xor h (xxRound 0 (leWord (bs.take 8)))) 27) xxP1) xxP4)
        (bs.drop 8)
    else (h, bs)

/-- Per-byte tail. -/
def xxTail1 : Nat → List Nat → Nat
  | h, [] => h
  | h, b :: bs =>
    xxTail1 (mul64 (rotl64 (Nat.xor h (mul64 (b % 256) xxP5)) 11) xxP1) bs

def xxAvalanche (h : Nat) : Nat :=
  let h1 := mul64 (Nat.xor h (h >>> 33)) xxP2
  let h2 := mul64 (Nat.xor h1 (h1 >>> 29)) xxP3
  Nat.xor h2 (h2 >>> 32)

def xxh64 (seed : Nat) (input : List Nat) : Nat :=
  let core :=
    if 32 ≤ input.length then
      match xxStripes (input.length + 1)
          (add64 (add64 seed xxP1) xxP2) (add64 seed xxP2)
          (seed % M64) (sub64 seed xxP1) input with
      | (v1, v2, v3, v4, rest) =>
        let h := add64 (add64 (add64 (rotl64 v1 1) (rotl64 v2 7)) (rotl64 v3 12))
          (rotl64 v4 18)
        (xxMergeRound (xxMergeRound (xxMergeRound (xxMergeRound h v1) v2) v3) v4, rest)
    else (add64 (seed % M64) xxP5, input)
  let h0 := add64 core.1 input.length
  let t8 := xxTail8 (input.length + 1) h0 core.2
  let t4 :=
    if 4 ≤ t8.2.length then
      (add64 (mul64 (rotl64 (Nat.xor t8.1 (mul64 (leWord (t8.2.take 4)) xxP1)) 23) xxP2)
        xxP3, t8.2.drop 4)
    else t8
  xxAvalanche (xxTail1 t4.1 t4.2)

def twox_64 (data : List Nat) : List Nat := le64Bytes (xxh64 0 data)

def twox_128 (data : List Nat) : List Nat :=
  le64Bytes (xxh64 0 data) ++ le64Bytes (xxh64 1 data)

def twox_256 (data : List Nat) : List Nat :=
  le64Bytes (xxh64 0 data) ++ le64Bytes (xxh64 1 data) ++
  le64Bytes (xxh64 2 data) ++ le64Bytes (xxh64 3 data)

/-! ## Blake2b (unkeyed), digest lengths 16 (`blake2_128`) and 32 (`blake2_256`) -/

def blakeIV : List Nat :=
  [0x6a09e667f3bcc908, 0xbb67ae8584caa73b, 0x3c6ef372fe94f82b, 0xa54ff53a5f1d36f1,
   0x510e527fade682d1, 0x9b05688c2b3e6c1f, 0x1f83d9abfb41bd6b, 0x5be0cd19137e2179]

def blakeSigma : List (List Nat) :=
  [[0, 1, 2, 3, 4, 5, 6, 7, 8, 9, 10, 11, 12, 13, 14, 15],
   [14, 10, 4, 8, 9, 15, 13, 6, 1, 12, 0, 2, 11, 7, 5, 3],
   [11, 8, 12, 0, 5, 2, 15, 13, 10, 14, 3, 6, 7, 1, 9, 4],
   [7, 9, 3, 1, 13, 12, 11, 14, 2, 6, 5, 10, 4, 0, 15, 8],
   [9, 0, 5, 7, 2, 4, 10, 15, 14, 1, 11, 12, 6, 8, 3, 13],
   [2, 12, 6, 10, 0, 11, 8, 3, 4, 13, 7, 5, 15, 14, 1, 9],
   [12, 5, 1, 15, 14, 13, 4, 10, 0, 7, 6, 3, 9, 2, 8, 11],
   [13, 11, 7, 14, 12, 1, 3, 9, 5, 0, 15, 4, 8, 6, 2, 10],
   [6, 15, 14, 9, 11, 3, 0, 8, 12, 2, 13, 7, 1, 4, 10, 5],
   [10, 2, 8, 4, 7, 6, 1, 5, 15, 11, 9, 14, 3, 12, 13, 0]]

/-- Blake2b mixing function G acting on the 16-word work vector. -/
def blakeG (v : List Nat) (a b c d x y : Nat) : List Nat :=
  let va := add64 (add64 (v.getD a 0) (v.getD b 0)) x
  let vd := rotr64 (Nat.xor (v.getD d 0) va) 32
  let vc := add64 (v.getD c 0) vd
  let vb := rotr64 (Nat.xor (v.getD b 0) vc) 24
  let va2 := add64 (add64 va vb) y
  let vd2 := rotr64 (Nat.xor vd va2) 16
  let vc2 := add64 vc vd2
  let vb2 := rotr64 (Nat.xor vb vc2) 63
  (((v.set a va2).set b vb2).set c vc2).set d vd2

def blakeRound (m : List Nat) (v : List Nat) (r : Nat) : List Nat :=
  let s := blakeSigma.getD (r % 10) []
  let mi := fun i => m.getD (s.getD i 0) 0
  let v1 := blakeG v 0 4 8 12 (mi 0) (mi 1)
  let v2 := blakeG v1 1 5 9 13 (mi 2) (mi 3)
  let v3 := blakeG v2 2 6 10 14 (mi 4) (mi 5)
  let v4 := blakeG v3 3 7 11 15 (mi 6) (mi 7)
  let v5 := blakeG v4 0 5 10 15 (mi 8) (mi 9)
  let v6 := blakeG v5 1 6 11 12 (mi 10) (mi 11)
  let v7 := blakeG v6 2 7 8 13 (mi 12) (mi 13)
  blakeG v7 3 4 9 14 (mi 14) (mi 15)

/-- One compression: `h` is the 8-word chain, `m` the 16-word message block,
`t` the byte offset counter, `final` the last-block flag. -/
def blakeCompress (h : List Nat) (m : List Nat) (t : Nat) (final : Bool) :
    List Nat :=
  let v0 := h ++ blakeIV
  let v1 := v0.set 12 (Nat.xor (v0.getD 12 0) (t % M64))
  let v2 := v1.set 13 (Nat.xor (v1.getD 13 0) (t / M64 % M64))
  let v3 := if final then v2.set 14 (Nat.xor (v2.getD 14 0) (M64 - 1)) else v2
  let v := (List.range 12).foldl (blakeRound m) v3
  (List.range 8).map (fun i => Nat.xor (h.getD i 0) (Nat.xor (v.getD i 0) (v.getD (i + 8) 0)))

/-- Split a (≤ 128 byte) chunk into 16 little-endian 64-bit words, zero-padded. -/
def bytesToWords16 (bs : List Nat) : List Nat :=
  (List.range 16).map (fun i => leWord (((bs ++ List.replicate 128 0).drop (8 * i)).take 8))

/-- Block loop: full 128-byte blocks while more than 128 bytes remain, with the
final (possibly short, possibly empty) block flagged.  Fuel exceeds the block
count, so the 0 case is unreachable. -/
def blakeBlocks : Nat → List Nat → Nat → List Nat → List Nat
  | 0, h, t, bs => blakeCompress h (bytesToWords16 bs) (t + bs.length) true
  | fuel + 1, h, t, bs =>
    if 128 < bs.length then
      blakeBlocks fuel (blakeCompress h (bytesToWords16 (bs.take 128)) (t + 128) false)
        (t + 128) (bs.drop 128)
    else blakeCompress h (bytesToWords16 bs) (t + bs.length) true

/-- Blake2b with digest length `nn` bytes (unkeyed). -/
def blake2b (nn : Nat) (input : List Nat) : List Nat :=
  let h0 := blakeIV.set 0 (Nat.xor (blakeIV.getD 0 0) (Nat.xor 0x01010000 nn))
  (((blakeBlocks (input.length + 1) h0 0 input).map le64Bytes).flatten).take nn

def blake2_256 (data : List Nat) : List Nat := blake2b 32 data

def blake2_128 (data : List Nat) : List Nat := blake2b 16 data

/-! ## metadata.rs: error types -/

/-- Embedding of `metadata.rs`'s `MetadataError` (lookup failures). -/
inductive MetadataError
  | ModuleNotFound (name : String)
  | CallNotFound (name : String)
  | EventNotFound (index : Nat)
  | StorageNotFound (name : String)
  | StorageTypeError
  | MapValueTypeError
  | IndexNotFound (name : String)
deriving DecidableEq

/-- Embedding of `metadata.rs`'s `Error` (conversion / parse failures).
`InvalidEventArg` carries the offending input and the static message. -/
inductive MetaError
  | InvalidPrefix
  | InvalidVersion
  | ExpectedDecoded
  | InvalidEventArg (input : List Char) (msg : String)
deriving DecidableEq

/-! ## metadata.rs: EventArg grammar -/

/-- Embedding of `metadata.rs`'s `EventArg`, the recursive event-argument
type descriptor.  `Primitive` keeps the original characters. -/
inductive EventArg
  | Primitive (name : List Char)
  | Vec (inner : EventArg)
  | Tuple (args : List EventArg)

/-- Boolean test that `pat` is a leading segment of `s` (Rust `str::starts_with`). -/
def strStarts : List Char → List Char → Bool
  | _, [] => true
  | [], _ :: _ => false
  | c :: cs, p :: ps => c == p && strStarts cs ps

/-- Boolean test that `s` ends with the single character `c` (Rust `str::ends_with`). -/
def strEndsWith (s : List Char) (c : Char) : Bool :=
  match s.getLast? with
  | some d => d == c
  | none => false

/-- Rust `str::split(',')`: splits at every comma, keeping empty pieces. -/
def splitComma : List Char → List (List Char)
  | [] => [[]]
  | c :: cs =>
    if c = ',' then [] :: splitComma cs
    else
      match splitComma cs with
      | [] => [[c]]
      | t :: ts => (c :: t) :: ts

/-- Rust `str::trim` restricted to the whitespace characters that occur here. -/
def trimChars (s : List Char) : List Char :=
  ((s.dropWhile Char.isWhitespace).reverse.dropWhile Char.isWhitespace).reverse

/-- Embedding of `EventArg::from_str`.  The fuel argument only bounds the
recursion depth; since every recursive call strictly shrinks the input, fuel
`s.length + 1` (as passed by `EventArg.fromStr`) never runs out, so the fuel-0
branch is unreachable. -/
def parseEventArgF : Nat → List Char → Except MetaError EventArg
  | 0, s => .error (.InvalidEventArg s "out of fuel")
  | fuel + 1, s =>
    if strStarts s ['V', 'e', 'c', '<'] then
      if strEndsWith s '>' then
        (parseEventArgF fuel ((s.drop 4).dropLast)).map EventArg.Vec
      else
        .error (.InvalidEventArg s "Expected closing `>` for `Vec`")
    else if strStarts s ['('] then
      if strEndsWith s ')' then
        (splitComma ((s.drop 1).dropLast)).mapM
          (fun arg => parseEventArgF fuel (trimChars arg)) |>.map EventArg.Tuple
      else
        .error (.InvalidEventArg s "Expecting closing `)` for tuple")
    else
      .ok (.Primitive s)

/-- Top-level entry corresponding to `"...".parse::<EventArg>()`. -/
def EventArg.fromStr (s : List Char) : Except MetaError EventArg :=
  parseEventArgF (s.length + 1) s

/-- Embedding of `EventArg::primitives`: depth-first, left-to-right leaf names. -/
def EventArg.primitives : EventArg → List (List Char)
  | .Primitive p => [p]
  | .Vec arg => arg.primitives
  | .Tuple args => primitivesList args
where
  /-- Folds the `primitives.extend(arg.primitives())` loop over the children. -/
  primitivesList : List EventArg → List (List Char)
    | [] => []
    | a :: as => a.primitives ++ primitivesList as

/-! ## metadata.rs: storage descriptors -/

/-- Embedding of `runtime_metadata::StorageHasher`, the closed enumeration of
the five storage-key hash algorithms. -/
inductive StorageHasher
  | Blake2_128
  | Blake2_256
  | Twox128
  | Twox256
  | Twox64Concat
deriving DecidableEq

/-- Embedding of `runtime_metadata::StorageEntryModifier`. -/
inductive StorageEntryModifier
  | Optional
  | Default
deriving DecidableEq

/-- Embedding of `runtime_metadata::StorageEntryType`; only the parts the
client inspects (the tag and the map's hasher) are kept. -/
inductive StorageEntryType
  | Plain
  | Map (hasher : StorageHasher)
  | DoubleMap
deriving DecidableEq

/-- Embedding of `metadata.rs`'s `StorageMetadata`.  The field `pfx` is the
source's `prefix` string, `"<ModuleName> <EntryName>"`. -/
structure StorageMetadata where
  pfx : String
  modifier : StorageEntryModifier
  ty : StorageEntryType
  default : List Nat

/-- Embedding of `metadata.rs`'s `StorageMap<K, V>`.  The phantom key type is
dropped: `key` takes the SCALE-encoded key bytes (the result of `K::encode`,
computed by the external codec) directly.  The field `pfx` is the source's
`prefix` bytes. -/
structure StorageMapV (V : Type) where
  pfx : List Nat
  hasher : StorageHasher
  default : V

/-- Embedding of `StorageMap::key`: hash the concatenation of the stored
prefix bytes and the encoded key, with the algorithm dictated by the stored
hasher. -/
def StorageMapV.key {V : Type} (m : StorageMapV V) (keyEnc : List Nat) : List Nat :=
  let bytes := m.pfx ++ keyEnc
  match m.hasher with
  | .Blake2_128 => blake2_128 bytes
  | .Blake2_256 => blake2_256 bytes
  | .Twox128 => twox_128 bytes
  | .Twox256 => twox_256 bytes
  | .Twox64Concat => twox_64 bytes

/-- Embedding of `StorageMetadata::get_map`.  `decodeV` stands for the
external `V::decode`; a decode failure is `MapValueTypeError` exactly as in
the source. -/
def StorageMetadata.get_map {V : Type} (sm : StorageMetadata)
    (decodeV : List Nat → Option V) : Except MetadataError (StorageMapV V) :=
  match sm.ty with
  | .Map hasher =>
    match decodeV sm.default with
    | some default => .ok { pfx := strBytes sm.pfx, hasher := hasher, default := default }
    | none => .error .MapValueTypeError
  | _ => .error .StorageTypeError

/-! ## metadata.rs: module descriptors and conversion from the raw schema -/

/-- Embedding of `metadata.rs`'s `ModuleEventMetadata`. -/
structure ModuleEventMetadata where
  name : String
  arguments : List EventArg

/-- Embedding of `metadata.rs`'s `ModuleMetadata`.  The three `HashMap`s are
association lists; inserts cons at the front so `List.lookup` sees the latest
insert first, matching `HashMap` behaviour. -/
structure ModuleMetadata where
  index_for_calls : Option Nat
  index_for_events : Option Nat
  name : String
  storage : List (String × StorageMetadata)
  calls : List (String × List Nat)
  events : List (Nat × ModuleEventMetadata)

/-- Embedding of `ModuleMetadata::call`.  `paramsEnc` stands for the bytes of
the external `params.encode()`. -/
def ModuleMetadata.call (m : ModuleMetadata) (function : String)
    (paramsEnc : List Nat) : Except MetadataError (List Nat) :=
  match m.index_for_calls with
  | none => .error (.IndexNotFound m.name)
  | some index =>
    match m.calls.lookup function with
    | none => .error (.CallNotFound function)
    | some fn_bytes => .ok (index :: (fn_bytes ++ paramsEnc))

/-- Embedding of `ModuleMetadata::storage`. -/
def ModuleMetadata.storageEntry (m : ModuleMetadata) (key : String) :
    Except MetadataError StorageMetadata :=
  match m.storage.lookup key with
  | none => .error (.StorageNotFound key)
  | some sm => .ok sm

/-- Embedding of `metadata.rs`'s `Metadata`: the module map as an association
list (latest insert first). -/
structure Metadata where
  modules : List (String × ModuleMetadata)

/-- Embedding of `Metadata::module`. -/
def Metadata.module (m : Metadata) (name : String) :
    Except MetadataError ModuleMetadata :=
  match m.modules.lookup name with
  | none => .error (.ModuleNotFound name)
  | some mm => .ok mm

/-- Embedding of `Metadata::module_name` (lookup of a module by its assigned
event ordinal; linear scan over the map's values). -/
def Metadata.module_name (m : Metadata) (module_index : Nat) :
    Except MetadataError ModuleMetadata :=
  match m.modules.find? (fun p => p.2.index_for_events == some module_index) with
  | none => .error (.EventNotFound module_index)
  | some p => .ok p.2

/-! Raw (wire-side) metadata, mirroring the `runtime_metadata` crate types the
client consumes. -/

/-- Embedding of `runtime_metadata::DecodeDifferent`: either the still-encoded
form (whose payload the client never reads) or the decoded value. -/
inductive DecodeDifferent (O : Type)
  | Encode
  | Decoded (value : O)

/-- Embedding of `runtime_metadata::FunctionMetadata` (only the name is read). -/
structure RawFunctionMetadata where
  name : DecodeDifferent String

/-- Embedding of `runtime_metadata::EventMetadata` (name and argument strings). -/
structure RawEventMetadata where
  name : DecodeDifferent String
  arguments : DecodeDifferent (List String)

/-- Embedding of `runtime_metadata::StorageEntryMetadata`. -/
structure RawStorageEntryMetadata where
  name : DecodeDifferent String
  modifier : StorageEntryModifier
  ty : StorageEntryType
  default : DecodeDifferent (List Nat)

/-- Embedding of `runtime_metadata::StorageMetadata` (the per-module storage
section); `pfx` is the source's `prefix`. -/
structure RawStorageMetadata where
  pfx : DecodeDifferent String
  entries : DecodeDifferent (List RawStorageEntryMetadata)

/-- Embedding of `runtime_metadata::ModuleMetadata`. -/
structure RawModuleMetadata where
  name : DecodeDifferent String
  storage : Option (DecodeDifferent RawStorageMetadata)
  calls : Option (DecodeDifferent (List RawFunctionMetadata))
  event : Option (DecodeDifferent (List RawEventMetadata))

/-- Embedding of `runtime_metadata::RuntimeMetadata`: the one supported
version `V8` plus a catch-all for every other version tag. -/
inductive RuntimeMetadata
  | V8 (modules : DecodeDifferent (List RawModuleMetadata))
  | OtherVersion

/-- Embedding of `runtime_metadata::RuntimeMetadataPrefixed` (magic, payload). -/
structure RuntimeMetadataPrefixed where
  magic : Nat
  meta : RuntimeMetadata

/-- Value of `runtime_metadata::META_RESERVED` (the bytes "meta" read as a
little-endian u32). -/
def META_RESERVED : Nat := 0x6174656d

/-- Embedding of the free function `convert`. -/
def convert {O : Type} : DecodeDifferent O → Except MetaError O
  | .Decoded value => .ok value
  | .Encode => .error .ExpectedDecoded

/-- Embedding of `convert_entry`. -/
def convert_entry (pfx : String) (entry : RawStorageEntryMetadata) :
    Except MetaError StorageMetadata := do
  let default ← convert entry.default
  .ok { pfx := pfx, modifier := entry.modifier, ty := entry.ty, default := default }

/-- Storage-section loop of `convert_module`: builds the storage map in
iteration order (cons = `HashMap::insert`). -/
def convertStorageMap (mod : RawModuleMetadata) :
    Except MetaError (List (String × StorageMetadata)) :=
  match mod.storage with
  | none => .ok []
  | some st => do
    let storage ← convert st
    let pfx ← convert storage.pfx
    let entries ← convert storage.entries
    entries.foldlM
      (fun acc entry => do
        let entry_name ← convert entry.name
        let e ← convert_entry (pfx ++ " " ++ entry_name) entry
        pure ((entry_name, e) :: acc))
      []

/-- Call-section loop of `convert_module`: each function name maps to the
one-byte vector of its position (`vec![index as u8]`). -/
def convertCallMap (mod : RawModuleMetadata) :
    Except MetaError (List (String × List Nat)) :=
  match mod.calls with
  | none => .ok []
  | some calls => do
    let cs ← convert calls
    cs.enum.foldlM
      (fun acc ic => do
        let name ← convert ic.2.name
        pure ((name, [ic.1 % 256]) :: acc))
      []

/-- Embedding of `convert_event`. -/
def convert_event (event : RawEventMetadata) :
    Except MetaError ModuleEventMetadata := do
  let name ← convert event.name
  let argStrs ← convert event.arguments
  let arguments ← argStrs.mapM (fun arg => EventArg.fromStr arg.toList)
  .ok { name := name, arguments := arguments }

/-- Event-section loop of `convert_module`. -/
def convertEventMap (mod : RawModuleMetadata) :
    Except MetaError (List (Nat × ModuleEventMetadata)) :=
  match mod.event with
  | none => .ok []
  | some events => do
    let es ← convert events
    es.enum.foldlM
      (fun acc ie => do
        let e ← convert_event ie.2
        pure ((ie.1 % 256, e) :: acc))
      []

/-- Embedding of `convert_module`. -/
def convert_module (index_for_calls index_for_events : Option Nat)
    (mod : RawModuleMetadata) : Except MetaError ModuleMetadata := do
  let storage_map ← convertStorageMap mod
  let call_map ← convertCallMap mod
  let event_map ← convertEventMap mod
  let name ← convert mod.name
  .ok { index_for_calls := index_for_calls, index_for_events := index_for_events,
        name := name, storage := storage_map, calls := call_map, events := event_map }

/-- Module loop of `Metadata::try_from`: walks the modules in declaration
order, assigning the two independent ordinal counters and inserting each
converted module into the accumulator map.  In the source `call_index` and
`event_index` are inferred as `u8` (they flow into `convert_module`'s
`Option<u8>` parameters), so each increment wraps modulo 256; the counters
passed in are u8 values, hence below 256. -/
def buildModules : List RawModuleMetadata → List (String × ModuleMetadata) →
    Nat → Nat → Except MetaError (List (String × ModuleMetadata))
  | [], acc, _, _ => .ok acc
  | mod :: rest, acc, call_index, event_index => do
    let module_name ← convert mod.name
    let index_for_calls := if mod.calls.isSome then some call_index else none
    let index_for_events := if mod.event.isSome then some event_index else none
    let mm ← convert_module index_for_calls index_for_events mod
    buildModules rest ((module_name, mm) :: acc)
      (if mod.calls.isSome then (call_index + 1) % 256 else call_index)
      (if mod.event.isSome then (event_index + 1) % 256 else event_index)

/-- Embedding of `impl TryFrom<RuntimeMetadataPrefixed> for Metadata`. -/
def Metadata.tryFrom (metadata : RuntimeMetadataPrefixed) :
    Except MetaError Metadata := do
  if metadata.magic ≠ META_RESERVED then
    .error .InvalidPrefix
  else
    match metadata.meta with
    | .OtherVersion => .error .InvalidVersion
    | .V8 modsDD => do
      let mods ← convert modsDD
      let modules ← buildModules mods [] 0 0
      .ok { modules := modules }

/-! ## rpc.rs: the transaction submission pipeline

Generic type parameters of `Rpc<T>` are shallow-embedded as ordinary Lean
type parameters and function parameters: `T::Hash` is a type `H` with
decidable equality, `T::Hashing::hash_of` is a function `hashOf`, SCALE
encode/decode instances are explicit functions, the signer is a function on
byte lists, and every stream is the list of the items it yields. -/

/-- Embedding of `Rpc::fetch_nonce`'s response handling: `data.map_or` of the
storage query result.  A present-but-undecodable value panics in the source
(`expect`), modelled as `none`; `dflt` is `Default::default()` of the index
type and `decodeIndex` its SCALE decoder. -/
def fetch_nonce {ι : Type} (decodeIndex : List Nat → Option ι) (dflt : ι)
    (data : Option (List Nat)) : Option ι :=
  match data with
  | none => some dflt
  | some d => decodeIndex d

/-- Storage key used by `Rpc::subscribe_events`: the 128-bit twox hash of the
fixed literal `b"System Events"`. -/
def system_events_key : List Nat := twox_128 (strBytes "System Events")

/-- Subscription request issued by `Rpc::subscribe_events`: the single-key
list passed to `state.subscribe_storage`. -/
def subscribe_events_keys : List (List Nat) := [system_events_key]

/-- Embedding of `transaction_pool::watcher::Status`, the pool status stream
item type.  `Hx` is the transaction hash type, `BH` the block hash type. -/
inductive TxStatus (Hx BH : Type)
  | Future
  | Ready
  | Broadcast (peers : List String)
  | Finalized (block : BH)
  | Usurped (tx : Hx)
  | Dropped
  | Invalid

/-- The `match status` arm inside `Rpc::submit_and_watch`'s `filter_map`:
`none` for the transient statuses, a terminal outcome otherwise. -/
def statusOutcome {Hx BH : Type} : TxStatus Hx BH → Option (Except String BH)
  | .Future => none
  | .Ready => none
  | .Broadcast _ => none
  | .Finalized block_hash => some (.ok block_hash)
  | .Usurped _ => some (.error "Extrinsic Usurped")
  | .Dropped => some (.error "Extrinsic Dropped")
  | .Invalid => some (.error "Extrinsic Invalid")

/-- Embedding of `Rpc::submit_and_watch`'s stream handling: the status stream
is filtered through `statusOutcome`, `into_future` takes the first retained
item, and an exhausted stream is the "Stream terminated" error. -/
def submit_and_watch {Hx BH : Type} (statuses : List (TxStatus Hx BH)) :
    Except String BH :=
  match (statuses.filterMap statusOutcome).head? with
  | none => .error "Stream terminated"
  | some r => r

/-- Signing closure of `create_and_sign_extrinsic`: over the SCALE-encoded
payload bytes, sign the 32-byte blake2-256 hash when the serialization is
longer than 256 bytes, the raw bytes otherwise. -/
def create_signature (sign : List Nat → List Nat) (payload : List Nat) :
    List Nat :=
  if 256 < payload.length then sign (blake2_256 payload) else sign payload

/-- Embedding of `srml_system::Phase`, the tag attributing an event record to
its origin inside a block. -/
inductive Phase
  | ApplyExtrinsic (index : Nat)
  | Finalization
deriving DecidableEq

/-- Embedding of `srml_system::EventRecord<E, H>`. -/
structure EventRecord (E H : Type) where
  phase : Phase
  event : E
  topics : List H

/-- Embedding of `rpc.rs`'s `ExtrinsicSuccess<T>` result value. -/
structure ExtrinsicSuccess (E H : Type) where
  block : H
  extrinsic : H
  events : List E

/-- Embedding of `substrate_primitives::storage::StorageChangeSet<H>`: a block
hash and the changed `(key, optional value)` entries. -/
structure ChangeSet (H : Type) where
  block : H
  changes : List (List Nat × Option (List Nat))

/-- Per-change-set record extraction inside `wait_for_block_events`: every
entry's optional data is decoded (`filter_map` ignores the key) and the
decoded record lists are flattened.  `decodeRecords` stands for the SCALE
decoder of `Vec<EventRecord<T::Event, T::Hash>>`. -/
def changeSetRecords {E H : Type}
    (decodeRecords : List Nat → Option (List (EventRecord E H)))
    (cs : ChangeSet H) : List (EventRecord E H) :=
  (cs.changes.filterMap (fun change => change.2.bind decodeRecords)).flatten

/-- Embedding of `Iterator::position`: the index of the first element
satisfying the predicate, if any. -/
def positionOf {A : Type} (p : A → Bool) : List A → Option Nat
  | [] => none
  | x :: xs => if p x then some 0 else (positionOf p xs).map (· + 1)

/-- Embedding of `wait_for_block_events`: locate the extrinsic by hash in the
block's transaction list, take the first change-set reporting the target
block, and keep the records whose phase applies the located position. -/
def wait_for_block_events {E H : Type} [DecidableEq H]
    (hashOf : List Nat → H)
    (decodeRecords : List Nat → Option (List (EventRecord E H)))
    (ext_hash : H) (signed_block : List (List Nat)) (block_hash : H)
    (events : List (ChangeSet H)) : Except String (ExtrinsicSuccess E H) :=
  let ext_index := positionOf (fun ext => hashOf ext == ext_hash) signed_block
  let block_events :=
    ((events.map (fun cs => (cs.block, changeSetRecords decodeRecords cs))).filter
      (fun p => p.1 == block_hash)).head?
  match ext_index with
  | none => .error "Failed to find Extrinsic"
  | some idx =>
    let filtered :=
      (block_events.elim [] (fun p => p.2)).filterMap
        (fun e =>
          match e.phase with
          | .ApplyExtrinsic i => if i = idx then some e.event else none
          | _ => none)
    .ok { block := block_hash, extrinsic := ext_hash, events := filtered }

/-- Concrete prefix bytes used to exhibit the five hashers diverging. -/
def demoPfx : List Nat := strBytes "Balances FreeBalance"

/-- Concrete encoded key used to exhibit the five hashers diverging. -/
def demoKeyEnc : List Nat := [1, 2, 3, 4]

/-- Concrete record decoder for witnesses: every byte of the raw value
becomes one record tagged for extrinsic position 0. -/
def keyBlindDec : List Nat → Option (List (EventRecord Nat Nat)) :=
  fun d => some (d.map (fun b => ⟨.ApplyExtrinsic 0, b, []⟩))

/-- Default entry for positional `getD` access into a converted module list. -/
def defaultModuleEntry : String × ModuleMetadata :=
  ("", ⟨none, none, "", [], [], []⟩)

/-- Default entry for positional `getD` access into a raw module list. -/
def defaultRawModule : RawModuleMetadata := ⟨.Encode, none, none, none⟩

/-- Raw module M1: declares both a call section and an event section. -/
def rawM1 : RawModuleMetadata :=
  ⟨.Decoded "M1", none, some (.Decoded []), some (.Decoded [])⟩

/-- Raw module M2: declares only a call section. -/
def rawM2 : RawModuleMetadata := ⟨.Decoded "M2", none, some (.Decoded []), none⟩

/-- Raw module M3: declares only an event section. -/
def rawM3 : RawModuleMetadata := ⟨.Decoded "M3", none, none, some (.Decoded [])⟩

/-- Schema carrying M1, M2, M3 in declaration order. -/
def schemaMMM : RuntimeMetadataPrefixed :=
  ⟨META_RESERVED, .V8 (.Decoded [rawM1, rawM2, rawM3])⟩

/-- The metadata produced from `schemaMMM`. -/
def metaMMM : Metadata :=
  ⟨[("M3", ⟨none, some 1, "M3", [], [], []⟩),
    ("M2", ⟨some 1, none, "M2", [], [], []⟩),
    ("M1", ⟨some 0, some 0, "M1", [], [], []⟩)]⟩

/-- Concrete record decoder for the C1 witness: byte `b` becomes a record in
phase `ApplyExtrinsic b` carrying event payload `b + 100`. -/
def c1dec : List Nat → Option (List (EventRecord Nat Nat)) :=
  fun d => some (d.map (fun b => ⟨.ApplyExtrinsic b, b + 100, []⟩))

/-- A schema with 257 call-declaring modules, enough to wrap the u8 call
counter. -/
def manyRawModules : List RawModuleMetadata :=
  List.replicate 257 ⟨.Decoded "M", none, some (.Decoded []), none⟩

/-! ## Helper lemmas -/

theorem mem_of_getLast?_eq {α : Type} {l : List α} {a : α}
    (h : l.getLast? = some a) : a ∈ l := by
  induction l with
  | nil => exact absurd h (by simp)
  | cons c cs ih =>
    cases cs with
    | nil => simp at h; simp [h]
    | cons d ds =>
      rw [List.getLast?_cons_cons] at h
      exact List.mem_cons_of_mem _ (ih h)

theorem splitComma_no_comma (l : List Char) (h : ',' ∉ l) : splitComma l = [l] := by
  induction l with
  | nil => rfl
  | cons c cs ih =>
    have hc : ¬c = ',' := fun he => h (he ▸ List.mem_cons_self c cs)
    have hcs : ',' ∉ cs := fun hm => h (List.mem_cons_of_mem _ hm)
    simp [splitComma, hc, ih hcs]

theorem splitComma_append (a rest : List Char) (h : ',' ∉ a) :
    splitComma (a ++ ',' :: rest) = a :: splitComma rest := by
  induction a with
  | nil => simp [splitComma]
  | cons c cs ih =>
    have hc : ¬c = ',' := fun he => h (he ▸ List.mem_cons_self c cs)
    have hcs : ',' ∉ cs := fun hm => h (List.mem_cons_of_mem _ hm)
    simp only [List.cons_append, splitComma, if_neg hc, List.append_eq]
    rw [ih hcs]

theorem dropWhile_eq_self_of {α : Type} (p : α → Bool) (l : List α)
    (h : ∀ c ∈ l, p c = false) : l.dropWhile p = l := by
  cases l with
  | nil => rfl
  | cons c cs =>
    rw [List.dropWhile_cons, h c (List.mem_cons_self c cs)]
    simp

theorem trimChars_eq_self (l : List Char) (h : ∀ c ∈ l, c.isWhitespace = false) :
    trimChars l = l := by
  unfold trimChars
  rw [dropWhile_eq_self_of _ l h,
    dropWhile_eq_self_of _ l.reverse (fun c hc => h c (List.mem_reverse.mp hc)),
    List.reverse_reverse]

theorem alphanum_ne_comma {c : Char} (h : c.isAlphanum = true) : c ≠ ',' :=
  fun he => absurd h (by rw [he]; decide)

theorem alphanum_ne_rparen {c : Char} (h : c.isAlphanum = true) : c ≠ ')' :=
  fun he => absurd h (by rw [he]; decide)

theorem alphanum_not_ws {c : Char} (h : c.isAlphanum = true) :
    c.isWhitespace = false := by
  by_cases h32 : c = ' '
  · rw [h32] at h; exact absurd h (by decide)
  · by_cases h9 : c = '\t'
    · rw [h9] at h; exact absurd h (by decide)
    · by_cases h13 : c = '\r'
      · rw [h13] at h; exact absurd h (by decide)
      · by_cases h10 : c = '\n'
        · rw [h10] at h; exact absurd h (by decide)
        · simp [Char.isWhitespace, h32, h9, h13, h10]

theorem comma_not_mem_of_alphanum {l : List Char}
    (h : ∀ c ∈ l, c.isAlphanum = true) : ',' ∉ l :=
  fun hm => absurd (h _ hm) (by decide)

/-- The fragment `'(' :: p` never ends with a closing parenthesis when `p` is
made of alphanumeric characters. -/
theorem paren_fragment_not_closed {p : List Char}
    (hp : ∀ c ∈ p, c.isAlphanum = true) : strEndsWith ('(' :: p) ')' = false := by
  unfold strEndsWith
  cases hl : ('(' :: p).getLast? with
  | none => rfl
  | some d =>
    have hd : d ∈ '(' :: p := mem_of_getLast?_eq hl
    rcases List.mem_cons.mp hd with h1 | h2
    · rw [h1]; decide
    · have : d ≠ ')' := alphanum_ne_rparen (hp d h2)
      simp [this]

/-- Parsing the inner fragment `'(' :: p` fails with the tuple delimiter error
whenever any fuel is left. -/
theorem parse_paren_fragment_fails (n : Nat) {p : List Char}
    (hp : ∀ c ∈ p, c.isAlphanum = true) :
    parseEventArgF (n + 1) ('(' :: p) =
      .error (.InvalidEventArg ('(' :: p) "Expecting closing `)` for tuple") := by
  have hv : strStarts ('(' :: p) ['V', 'e', 'c', '<'] = false := by
    simp [strStarts]
  have ho : strStarts ('(' :: p) ['('] = true := by
    cases p <;> simp [strStarts]
  simp [parseEventArgF, hv, ho, paren_fragment_not_closed hp]

theorem strEndsWith_concat (l : List Char) (c : Char) :
    strEndsWith (l ++ [c]) c = true := by
  unfold strEndsWith
  rw [List.getLast?_concat]
  simp

theorem drop1_dropLast_wrap (c d : Char) (l : List Char) :
    ((c :: (l ++ [d])).drop 1).dropLast = l := by
  rw [List.drop_one, List.tail_cons, List.dropLast_concat]

/-- Branch selection in `parseEventArgF`: a string that does not open with the
`Vec` marker but opens with a parenthesis and closes with one is handled by
the tuple branch. -/
theorem parseEventArgF_tuple_branch (fuel : Nat) (s : List Char)
    (hvec : strStarts s ['V', 'e', 'c', '<'] = false)
    (hpar : strStarts s ['('] = true)
    (hend : strEndsWith s ')' = true) :
    parseEventArgF (fuel + 1) s =
      ((splitComma ((s.drop 1).dropLast)).mapM
        (fun arg => parseEventArgF fuel (trimChars arg))).map EventArg.Tuple := by
  simp [parseEventArgF, hvec, hpar, hend]

/-- The tuple body `"(p,q),r"` is split at both commas before any piece is
parsed, and the resulting headless fragment `"(p"` is rejected. -/
theorem parse_nested_tuple_aux (n : Nat) (p q r : List Char)
    (hp : ∀ c ∈ p, c.isAlphanum = true) (hq : ∀ c ∈ q, c.isAlphanum = true)
    (hr : ∀ c ∈ r, c.isAlphanum = true) :
    parseEventArgF (n + 2)
      ((('(' :: '(' :: p) ++ [','] ++ q ++ [')', ','] ++ r) ++ [')']) =
      .error (.InvalidEventArg ('(' :: p) "Expecting closing `)` for tuple") := by
  have hnc1 : ',' ∉ '(' :: p := by
    intro hm
    rcases List.mem_cons.mp hm with h1 | h2
    · exact absurd h1 (by decide)
    · exact comma_not_mem_of_alphanum hp h2
  have hnc2 : ',' ∉ q ++ [')'] := by
    intro hm
    rcases List.mem_append.mp hm with h1 | h2
    · exact comma_not_mem_of_alphanum hq h1
    · simp at h2
  have hsplit : splitComma (('(' :: p) ++ ',' :: ((q ++ [')']) ++ ',' :: r)) =
      ('(' :: p) :: (q ++ [')']) :: [r] := by
    rw [splitComma_append _ _ hnc1, splitComma_append _ _ hnc2,
      splitComma_no_comma r (comma_not_mem_of_alphanum hr)]
  have htrim : trimChars ('(' :: p) = '(' :: p := by
    apply trimChars_eq_self
    intro c hc
    rcases List.mem_cons.mp hc with h1 | h2
    · rw [h1]; decide
    · exact alphanum_not_ws (hp c h2)
  have hbody : (('(' :: '(' :: p) ++ [','] ++ q ++ [')', ','] ++ r) ++ [')'] =
      '(' :: ((('(' :: p) ++ ',' :: ((q ++ [')']) ++ ',' :: r)) ++ [')']) := by
    simp
  rw [hbody]
  rw [parseEventArgF_tuple_branch (n + 1) _
    (by simp [strStarts]) (by simp [strStarts])
    (by rw [← List.cons_append]; exact strEndsWith_concat _ _)]
  rw [drop1_dropLast_wrap, hsplit]
  simp only [List.mapM_cons, htrim]
  rw [parse_paren_fragment_fails n hp]
  rfl

/-! ## Claim theorems -/

/-- C8: parsing the event-argument string `"Vec<(u8,Vec<bool>)>"` yields
`Vec(Tuple([Primitive("u8"), Vec(Primitive("bool"))]))`, and `primitives` on
that result is exactly `["u8", "bool"]`: depth-first, left-to-right leaf
flattening where a tuple concatenates its children's leaves in order and a
vector yields its single inner's leaves. -/
theorem parse_vec_tuple_primitives :
    EventArg.fromStr "Vec<(u8,Vec<bool>)>".toList =
      .ok (.Vec (.Tuple [.Primitive "u8".toList, .Vec (.Primitive "bool".toList)])) ∧
    (EventArg.Vec (.Tuple [.Primitive "u8".toList,
      .Vec (.Primitive "bool".toList)])).primitives = ["u8".toList, "bool".toList] :=
  ⟨rfl, rfl⟩

/-- C10: an event-argument string denoting a tuple with a comma inside a
nested parenthesized component, of the shape `"((p,q),r)"` with alphanumeric
`p`, `q`, `r`, fails to parse with `InvalidEventArg` instead of producing a
nested tuple: the body is split at every comma before the pieces are parsed,
leaving the fragment `"(p"` without its closing delimiter. -/
theorem tuple_nested_comma_fails (p q r : List Char)
    (hp : ∀ c ∈ p, c.isAlphanum = true) (hq : ∀ c ∈ q, c.isAlphanum = true)
    (hr : ∀ c ∈ r, c.isAlphanum = true) :
    EventArg.fromStr ((('(' :: '(' :: p) ++ [','] ++ q ++ [')', ','] ++ r) ++ [')']) =
      .error (.InvalidEventArg ('(' :: p) "Expecting closing `)` for tuple") := by
  unfold EventArg.fromStr
  have hlen :
      (((('(' :: '(' :: p) ++ [','] ++ q ++ [')', ','] ++ r) ++ [')']).length) + 1 =
      (p.length + q.length + r.length + 5) + 2 := by
    simp [List.length_append]
    omega
  rw [hlen]
  exact parse_nested_tuple_aux _ p q r hp hq hr

/-- Witness for C10 at the concrete input `"((u8,u16),u32)"`. -/
theorem tuple_nested_comma_fails_witness :
    EventArg.fromStr "((u8,u16),u32)".toList =
      .error (.InvalidEventArg "(u8".toList "Expecting closing `)` for tuple") :=
  tuple_nested_comma_fails "u8".toList "u16".toList "u32".toList
    (by decide) (by decide) (by decide)

/-- C9: when the remote store reports no value at the account-nonce key, the
nonce fetch succeeds with the index type's default (zero) value; when a value
is present, its decoded value is returned. -/
theorem fetch_nonce_default_or_decoded {ι : Type}
    (decodeIndex : List Nat → Option ι) (dflt : ι) (d : List Nat) (v : ι)
    (hd : decodeIndex d = some v) :
    fetch_nonce decodeIndex dflt none = some dflt ∧
    fetch_nonce decodeIndex dflt (some d) = some v :=
  ⟨rfl, by simp [fetch_nonce, hd]⟩

/-- Witness for C9: index type `Nat` with the little-endian decoder, absent
value gives 0, present value `[5,0,0,0]` gives 5. -/
theorem fetch_nonce_default_or_decoded_witness :
    (fun bs => some (leWord bs) : List Nat → Option Nat) [5, 0, 0, 0] = some 5 ∧
    fetch_nonce (fun bs => some (leWord bs)) 0 none = some 0 ∧
    fetch_nonce (fun bs => some (leWord bs)) 0 (some [5, 0, 0, 0]) = some 5 := by
  refine ⟨by rfl, ?_⟩
  have h := fetch_nonce_default_or_decoded (fun bs => some (leWord bs)) 0
    [5, 0, 0, 0] 5 (by rfl)
  exact h

/-- C3: transient pool statuses (Future, Ready, Broadcast) are skipped with no
effect; the first terminal status alone decides the result, independently of
anything after it: Finalized succeeds with its block hash while Usurped,
Dropped and Invalid each map to their own named error; and a stream with no
terminal status fails with "Stream terminated". -/
theorem submit_and_watch_first_terminal {Hx BH : Type}
    (pre rest : List (TxStatus Hx BH)) (t : TxStatus Hx BH)
    (r : Except String BH)
    (hpre : ∀ s ∈ pre, statusOutcome s = none)
    (ht : statusOutcome t = some r) :
    submit_and_watch (pre ++ t :: rest) = r ∧
    (∀ bh : BH, statusOutcome (TxStatus.Finalized bh : TxStatus Hx BH) = some (.ok bh)) ∧
    (∀ tx : Hx, statusOutcome (TxStatus.Usurped tx : TxStatus Hx BH) =
      some (.error "Extrinsic Usurped")) ∧
    statusOutcome (TxStatus.Dropped : TxStatus Hx BH) = some (.error "Extrinsic Dropped") ∧
    statusOutcome (TxStatus.Invalid : TxStatus Hx BH) = some (.error "Extrinsic Invalid") ∧
    (∀ sts : List (TxStatus Hx BH), (∀ s ∈ sts, statusOutcome s = none) →
      submit_and_watch sts = .error "Stream terminated") := by
  refine ⟨?_, fun bh => rfl, fun tx => rfl, rfl, rfl, ?_⟩
  · unfold submit_and_watch
    rw [List.filterMap_append, List.filterMap_eq_nil_iff.mpr hpre,
      List.filterMap_cons, ht]
    rfl
  · intro sts hsts
    unfold submit_and_watch
    rw [List.filterMap_eq_nil_iff.mpr hsts]
    rfl

/-- Witness for C3: the stream Broadcast-then-Dropped resolves as the Dropped
failure, with the Broadcast contributing nothing. -/
theorem submit_and_watch_first_terminal_witness :
    submit_and_watch [(TxStatus.Broadcast [] : TxStatus Nat Nat), .Dropped] =
      .error "Extrinsic Dropped" := by
  have h := submit_and_watch_first_terminal [(TxStatus.Broadcast [] : TxStatus Nat Nat)]
    [] .Dropped (.error "Extrinsic Dropped") (by intro s hs; simp at hs; rw [hs]; rfl) rfl
  exact h.1

/-- C5: for a module holding call-section ordinal `m` and a function name `f`
mapped to the one-byte ordinal `b`, `call` returns exactly `[m, b]` followed
by the encoded arguments and nothing else; an unknown function name fails
with `CallNotFound`. -/
theorem module_call_bytes (m : ModuleMetadata) (f : String) (idx b : Nat)
    (paramsEnc : List Nat) (hidx : m.index_for_calls = some idx) :
    (m.calls.lookup f = some [b] →
      m.call f paramsEnc = .ok (idx :: b :: paramsEnc)) ∧
    (m.calls.lookup f = none →
      m.call f paramsEnc = .error (.CallNotFound f)) := by
  unfold ModuleMetadata.call
  rw [hidx]
  constructor
  · intro h; rw [h]; rfl
  · intro h; rw [h]

/-- Witness for C5: a concrete module with call ordinal 3 and function "foo"
at byte 7; "bar" is unknown. -/
theorem module_call_bytes_witness :
    (let m : ModuleMetadata :=
      ⟨some 3, none, "Demo", [], [("foo", [7])], []⟩
    m.call "foo" [9, 9] = .ok [3, 7, 9, 9] ∧
    m.call "bar" [9, 9] = .error (.CallNotFound "bar")) := by
  refine ⟨?_, ?_⟩
  · exact (module_call_bytes _ "foo" 3 7 [9, 9] rfl).1 rfl
  · exact (module_call_bytes _ "bar" 3 7 [9, 9] rfl).2 rfl

/-- Blake2b's compression always yields the 8-word chain. -/
theorem blakeCompress_length (h m : List Nat) (t : Nat) (f : Bool) :
    (blakeCompress h m t f).length = 8 := by
  simp [blakeCompress]

theorem blakeBlocks_length (fuel : Nat) :
    ∀ (h : List Nat) (t : Nat) (bs : List Nat),
      (blakeBlocks fuel h t bs).length = 8 := by
  induction fuel with
  | zero => intro h t bs; exact blakeCompress_length _ _ _ _
  | succ n ih =>
    intro h t bs
    unfold blakeBlocks
    split
    · exact ih _ _ _
    · exact blakeCompress_length _ _ _ _

theorem flatten_map_le64_length (L : List Nat) :
    ((L.map le64Bytes).flatten).length = 8 * L.length := by
  induction L with
  | nil => rfl
  | cons x xs ih =>
    simp only [List.map_cons, List.flatten_cons, List.length_append, ih,
      le64Bytes, List.length_cons]
    simp
    omega

/-- A blake2-256 digest is always exactly 32 bytes. -/
theorem blake2_256_length (bs : List Nat) : (blake2_256 bs).length = 32 := by
  unfold blake2_256 blake2b
  simp only [List.length_take, flatten_map_le64_length, blakeBlocks_length]
  omega

/-- C2: the signature of an assembled payload is computed over the 32-byte
blake2-256 hash of the serialization exactly when the serialized length
strictly exceeds 256 bytes, and over the raw bytes at 256 bytes or fewer, so
the signature target differs strictly at the 256-byte boundary. -/
theorem signature_target_boundary (sign : List Nat → List Nat)
    (payload : List Nat) :
    (256 < payload.length →
      create_signature sign payload = sign (blake2_256 payload)) ∧
    (payload.length ≤ 256 → create_signature sign payload = sign payload) ∧
    (payload.length = 257 → create_signature id payload ≠ payload) ∧
    (payload.length = 256 → create_signature id payload = payload) := by
  refine ⟨fun h => ?_, fun h => ?_, fun h => ?_, fun h => ?_⟩
  · simp [create_signature, h]
  · simp [create_signature, Nat.not_lt.mpr h]
  · have h1 : create_signature id payload = blake2_256 payload := by
      simp [create_signature, h]
    rw [h1]
    intro he
    have hlen := congrArg List.length he
    rw [blake2_256_length, h] at hlen
    omega
  · simp [create_signature, h]

/-- Witness for C2: a 257-byte payload is signed over something other than
its raw bytes, while a 255-byte payload is signed raw. -/
theorem signature_target_boundary_witness :
    256 < (List.replicate 257 0).length ∧
    create_signature id (List.replicate 257 0) ≠ List.replicate 257 0 ∧
    (List.replicate 255 0).length ≤ 256 ∧
    create_signature id (List.replicate 255 0) = id (List.replicate 255 0) := by
  refine ⟨by rw [List.length_replicate]; omega, ?_, by rw [List.length_replicate]; omega, ?_⟩
  · exact (signature_target_boundary id (List.replicate 257 0)).2.2.1
      (by rw [List.length_replicate])
  · exact (signature_target_boundary id (List.replicate 255 0)).2.1
      (by rw [List.length_replicate]; omega)

/-- C7: a storage-map key is the selected hash of prefix bytes followed by the
encoded key — deterministic in (prefix, hasher, key) and independent of
everything else in the map view — and over identical prefix and key the five
hash algorithms produce five pairwise distinct outputs. -/
theorem storage_key_hasher {V W : Type} (m : StorageMapV V) (m' : StorageMapV W)
    (k : List Nat) (hp : m.pfx = m'.pfx) (hh : m.hasher = m'.hasher) :
    m.key k = m'.key k ∧
    ([StorageHasher.Blake2_128, .Blake2_256, .Twox128, .Twox256, .Twox64Concat].map
      (fun hsh => StorageMapV.key ⟨demoPfx, hsh, 0⟩ demoKeyEnc)).Pairwise (· ≠ ·) := by
  constructor
  · unfold StorageMapV.key
    rw [hp, hh]
  · set_option maxRecDepth 10000 in decide

/-- Witness for C7: two map views over different value types with the same
prefix and hasher produce the same key for the same encoded key. -/
theorem storage_key_hasher_witness :
    StorageMapV.key (⟨demoPfx, .Blake2_128, 7⟩ : StorageMapV Nat) demoKeyEnc =
      StorageMapV.key (⟨demoPfx, .Blake2_128, true⟩ : StorageMapV Bool) demoKeyEnc ∧
    ([StorageHasher.Blake2_128, .Blake2_256, .Twox128, .Twox256, .Twox64Concat].map
      (fun hsh => StorageMapV.key ⟨demoPfx, hsh, 0⟩ demoKeyEnc)).Pairwise (· ≠ ·) :=
  storage_key_hasher ⟨demoPfx, .Blake2_128, 7⟩ ⟨demoPfx, .Blake2_128, true⟩
    demoKeyEnc rfl rfl

/-- C4 counterexample: `wait_for_block_events` decodes and attributes records
from a change-set entry whose key is not the system-events key — the per-entry
`filter_map` ignores the key entirely — so an entry under another key can
contribute records to the attributed result. -/
theorem events_key_filter_cex :
    ([9] : List Nat) ≠ system_events_key ∧
    wait_for_block_events (fun ext => ext.headD 0) keyBlindDec 1 [[1]] 7
      [⟨7, [([9], some [42])]⟩] = .ok ⟨7, 1, [42]⟩ := by
  constructor
  · intro h
    have hl := congrArg List.length h
    simp [system_events_key, twox_128, le64Bytes] at hl
  · rfl

/-- C4 amended: record extraction from a change-set depends only on the
entries' optional values, never on their keys; an entry under any key whose
data decodes contributes its records.  (The restriction to the events key is
enforced solely by the subscription request, `subscribe_events_keys`.) -/
theorem changeSetRecords_key_blind {E H : Type}
    (dec : List Nat → Option (List (EventRecord E H))) (b : H)
    (changes changes' : List (List Nat × Option (List Nat)))
    (h : changes.map Prod.snd = changes'.map Prod.snd) :
    changeSetRecords dec ⟨b, changes⟩ = changeSetRecords dec ⟨b, changes'⟩ := by
  unfold changeSetRecords
  have hsplit : (fun change : List Nat × Option (List Nat) => change.2.bind dec) =
      ((fun o : Option (List Nat) => o.bind dec) ∘ Prod.snd) := rfl
  rw [hsplit, ← List.filterMap_map, ← List.filterMap_map, h]

/-- Witness for the C4 amended claim: replacing an entry's key changes
nothing about the extracted records. -/
theorem changeSetRecords_key_blind_witness :
    changeSetRecords keyBlindDec ⟨(0 : Nat), [([9], some [1, 2])]⟩ =
      changeSetRecords keyBlindDec ⟨(0 : Nat), [([3, 4], some [1, 2])]⟩ :=
  changeSetRecords_key_blind keyBlindDec 0 _ _ rfl

/-- A successful `convert_module` carries the two ordinals through verbatim. -/
theorem convert_module_indices (ic ie : Option Nat) (mod : RawModuleMetadata)
    (mm : ModuleMetadata) (h : convert_module ic ie mod = .ok mm) :
    mm.index_for_calls = ic ∧ mm.index_for_events = ie := by
  unfold convert_module at h
  simp only [bind, Except.bind] at h
  cases h1 : convertStorageMap mod with
  | error e => rw [h1] at h; exact absurd h (by simp)
  | ok s =>
    rw [h1] at h
    cases h2 : convertCallMap mod with
    | error e => rw [h2] at h; exact absurd h (by simp)
    | ok c =>
      rw [h2] at h
      cases h3 : convertEventMap mod with
      | error e => rw [h3] at h; exact absurd h (by simp)
      | ok ev =>
        rw [h3] at h
        cases h4 : convert mod.name with
        | error e => rw [h4] at h; exact absurd h (by simp)
        | ok nm =>
          rw [h4] at h
          injection h with h
          rw [← h]
          exact ⟨rfl, rfl⟩

/-- Invariant of the `try_from` module loop: entries come out in declaration
order (reversed by consing), and each module's two ordinals are the u8 counter
bases plus the number of earlier modules declaring that section, reduced
modulo 256 (the counters are u8 and wrap). -/
theorem buildModules_spec (ms : List RawModuleMetadata) :
    ∀ (acc : List (String × ModuleMetadata)) (ci ei : Nat)
      (out : List (String × ModuleMetadata)), ci < 256 → ei < 256 →
      buildModules ms acc ci ei = .ok out →
      ∃ entries : List (String × ModuleMetadata),
        out = entries.reverse ++ acc ∧ entries.length = ms.length ∧
        ∀ i, i < ms.length →
          (entries.getD i defaultModuleEntry).2.index_for_calls =
            (if (ms.getD i defaultRawModule).calls.isSome then
              some ((ci + (ms.take i).countP (fun mod => mod.calls.isSome)) % 256)
            else none) ∧
          (entries.getD i defaultModuleEntry).2.index_for_events =
            (if (ms.getD i defaultRawModule).event.isSome then
              some ((ei + (ms.take i).countP (fun mod => mod.event.isSome)) % 256)
            else none) := by
  induction ms with
  | nil =>
    intro acc ci ei out hci hei h
    unfold buildModules at h
    injection h with h
    exact ⟨[], by rw [← h]; rfl, rfl, fun i hi => absurd hi (by simp)⟩
  | cons mod rest ih =>
    intro acc ci ei out hci hei h
    unfold buildModules at h
    simp only [bind, Except.bind] at h
    cases h1 : convert mod.name with
    | error e => rw [h1] at h; exact absurd h (by simp)
    | ok nm =>
      rw [h1] at h
      cases h2 : convert_module (if mod.calls.isSome then some ci else none)
          (if mod.event.isSome then some ei else none) mod with
      | error e => rw [h2] at h; exact absurd h (by simp)
      | ok mm =>
        rw [h2] at h
        obtain ⟨entries', he1, he2, he3⟩ :=
          ih _ _ _ _ (by split <;> omega) (by split <;> omega) h
        obtain ⟨hic, hie⟩ := convert_module_indices _ _ _ _ h2
        refine ⟨(nm, mm) :: entries', ?_, by simp [he2], ?_⟩
        · rw [he1, List.reverse_cons, List.append_assoc]
          rfl
        · intro i hi
          match i with
          | 0 =>
            simp only [List.getD_cons_zero, List.getD, List.take_zero,
              List.countP_nil, Nat.add_zero, Nat.mod_eq_of_lt hci,
              Nat.mod_eq_of_lt hei]
            exact ⟨hic, hie⟩
          | Nat.succ j =>
            have hj : j < rest.length := by
              simpa using hi
            obtain ⟨hc, he⟩ := he3 j hj
            constructor
            · simp only [List.getD_cons_succ, List.take_succ_cons,
                List.countP_cons, hc]
              by_cases hm : mod.calls.isSome = true <;> simp [hm] <;> split <;>
                first
                | rfl
                | (simp only [Option.some.injEq]; omega)
            · simp only [List.getD_cons_succ, List.take_succ_cons,
                List.countP_cons, he]
              by_cases hm : mod.event.isSome = true <;> simp [hm] <;> split <;>
                first
                | rfl
                | (simp only [Option.some.injEq]; omega)

/-- C6 counterexample: the ordinal counters are u8 and wrap, so they are not
monotonically increasing on every schema: in a schema of 257 call-declaring
modules, the 257th declared module (256 call-declaring predecessors) receives
call ordinal 0, not 256. -/
theorem ordinal_counter_wrap_cex :
    (Metadata.tryFrom ⟨META_RESERVED, .V8 (.Decoded manyRawModules)⟩).map
        (fun meta => (meta.modules.reverse.getD 256 defaultModuleEntry).2.index_for_calls) =
      .ok (some 0) ∧
    (manyRawModules.getD 256 defaultRawModule).calls.isSome = true ∧
    (manyRawModules.take 256).countP (fun mod => mod.calls.isSome) = 256 := by
  refine ⟨?_, rfl, ?_⟩ <;> set_option maxRecDepth 10000 in rfl

/-- C6 (amended): parsing a schema walks the modules in declaration order and
assigns two independent ordinal counters — one over modules declaring a call
section, one over modules declaring an event section — skipping modules
lacking that section; the counters are 8-bit and advance modulo 256, so each
module's call (event) ordinal is the count of earlier modules declaring calls
(events) reduced modulo 256, and a module without the section gets no
ordinal.  Within the first 256 modules declaring a section (every realistic
schema, and the M1/M2/M3 example) the counters are monotonically increasing
counts exactly as originally claimed. -/
theorem tryFrom_ordinal_assignment (md : RuntimeMetadataPrefixed)
    (ms : List RawModuleMetadata) (meta : Metadata)
    (hv : md.meta = .V8 (.Decoded ms)) (h : Metadata.tryFrom md = .ok meta) :
    ∃ entries : List (String × ModuleMetadata),
      meta.modules = entries.reverse ∧ entries.length = ms.length ∧
      ∀ i, i < ms.length →
        (entries.getD i defaultModuleEntry).2.index_for_calls =
          (if (ms.getD i defaultRawModule).calls.isSome then
            some (((ms.take i).countP (fun mod => mod.calls.isSome)) % 256)
          else none) ∧
        (entries.getD i defaultModuleEntry).2.index_for_events =
          (if (ms.getD i defaultRawModule).event.isSome then
            some (((ms.take i).countP (fun mod => mod.event.isSome)) % 256)
          else none) := by
  unfold Metadata.tryFrom at h
  split at h
  · exact absurd h (by simp)
  · rw [hv] at h
    simp only [bind, Except.bind, convert] at h
    cases h2 : buildModules ms [] 0 0 with
    | error e => rw [h2] at h; exact absurd h (by simp)
    | ok out =>
      rw [h2] at h
      obtain ⟨entries, he1, he2, he3⟩ :=
        buildModules_spec ms [] 0 0 out (by omega) (by omega) h2
      injection h with h
      refine ⟨entries, ?_, he2, ?_⟩
      · rw [← h]
        rw [he1, List.append_nil]
      · intro i hi
        have := he3 i hi
        simpa using this

/-- Witness for C6: modules M1 (calls and events), M2 (calls only), M3
(events only) in that order get call ordinals 0, 1, none and event ordinals
0, none, 1. -/
theorem tryFrom_ordinal_assignment_witness :
    Metadata.tryFrom schemaMMM = .ok metaMMM ∧
    metaMMM.modules.lookup "M1" = some ⟨some 0, some 0, "M1", [], [], []⟩ ∧
    metaMMM.modules.lookup "M2" = some ⟨some 1, none, "M2", [], [], []⟩ ∧
    metaMMM.modules.lookup "M3" = some ⟨none, some 1, "M3", [], [], []⟩ ∧
    (∃ entries : List (String × ModuleMetadata),
      metaMMM.modules = entries.reverse ∧
      entries.length = [rawM1, rawM2, rawM3].length ∧
      ∀ i, i < [rawM1, rawM2, rawM3].length →
        (entries.getD i defaultModuleEntry).2.index_for_calls =
          (if ([rawM1, rawM2, rawM3].getD i defaultRawModule).calls.isSome then
            some ((([rawM1, rawM2, rawM3].take i).countP
              (fun mod => mod.calls.isSome)) % 256)
          else none) ∧
        (entries.getD i defaultModuleEntry).2.index_for_events =
          (if ([rawM1, rawM2, rawM3].getD i defaultRawModule).event.isSome then
            some ((([rawM1, rawM2, rawM3].take i).countP
              (fun mod => mod.event.isSome)) % 256)
          else none)) :=
  ⟨rfl, rfl, rfl, rfl,
    tryFrom_ordinal_assignment schemaMMM [rawM1, rawM2, rawM3] metaMMM rfl rfl⟩

theorem positionOf_eq_none {A : Type} (p : A → Bool) (l : List A)
    (h : ∀ x ∈ l, p x = false) : positionOf p l = none := by
  induction l with
  | nil => rfl
  | cons x xs ih =>
    simp [positionOf, h x (List.mem_cons_self x xs),
      ih (fun y hy => h y (List.mem_cons_of_mem _ hy))]

theorem positionOf_eq_some {A : Type} (p : A → Bool) :
    ∀ (l : List A) (i : Nat) (e : A), l[i]? = some e → p e = true →
      (∀ j e', j < i → l[j]? = some e' → p e' = false) →
      positionOf p l = some i := by
  intro l
  induction l with
  | nil => intro i e he; simp at he
  | cons x xs ih =>
    intro i e he hp hmin
    cases i with
    | zero =>
      simp only [List.getElem?_cons_zero, Option.some.injEq] at he
      unfold positionOf
      rw [he, hp]
      simp
    | succ j =>
      have hx : p x = false := hmin 0 x (Nat.succ_pos j) (by simp)
      unfold positionOf
      rw [hx]
      simp only [Bool.false_eq_true, if_false]
      rw [List.getElem?_cons_succ] at he
      rw [ih j e he hp (fun k e' hk hke =>
        hmin (k + 1) e' (Nat.succ_lt_succ hk) (by rw [List.getElem?_cons_succ]; exact hke))]
      rfl

/-- The first change-set retained for the target block commutes with pairing
each change-set with its extracted records. -/
theorem blockEvents_comm {E H : Type} [DecidableEq H]
    (dec : List Nat → Option (List (EventRecord E H))) (block_hash : H)
    (events : List (ChangeSet H)) :
    ((events.map (fun cs => (cs.block, changeSetRecords dec cs))).filter
      (fun p => p.1 == block_hash)).head? =
    ((events.filter (fun cs => cs.block == block_hash)).head?).map
      (fun cs => (cs.block, changeSetRecords dec cs)) := by
  rw [List.filter_map, List.head?_map]
  rfl

/-- C1: the pipeline resolves to exactly the event records whose phase is
`ApplyExtrinsic i`, where `i` is the position of the first extrinsic in the
block whose recomputed hash equals the retained transaction hash; change-sets
reporting any other block are discarded and waiting continues; and a block
containing no extrinsic with the retained hash is a hard not-found error. -/
theorem wait_for_block_events_resolution {E H : Type} [DecidableEq H]
    (hashOf : List Nat → H) (dec : List Nat → Option (List (EventRecord E H)))
    (ext_hash : H) (blk : List (List Nat)) (block_hash : H)
    (events : List (ChangeSet H)) :
    ((∀ ext ∈ blk, hashOf ext ≠ ext_hash) →
      wait_for_block_events hashOf dec ext_hash blk block_hash events =
        .error "Failed to find Extrinsic") ∧
    (∀ i e, blk[i]? = some e → hashOf e = ext_hash →
      (∀ j e', j < i → blk[j]? = some e' → hashOf e' ≠ ext_hash) →
      wait_for_block_events hashOf dec ext_hash blk block_hash events =
        .ok ⟨block_hash, ext_hash,
          ((events.filter (fun cs => cs.block == block_hash)).head?.elim []
              (changeSetRecords dec)).filterMap
            (fun r => if r.phase = .ApplyExtrinsic i then some r.event else none)⟩) ∧
    (∀ cs : ChangeSet H, cs.block ≠ block_hash →
      wait_for_block_events hashOf dec ext_hash blk block_hash (cs :: events) =
        wait_for_block_events hashOf dec ext_hash blk block_hash events) := by
  refine ⟨?_, ?_, ?_⟩
  · intro hall
    have hpos : positionOf (fun ext => hashOf ext == ext_hash) blk = none :=
      positionOf_eq_none _ _ (fun x hx => beq_eq_false_iff_ne.mpr (hall x hx))
    unfold wait_for_block_events
    rw [hpos]
  · intro i e he hhash hmin
    have hpos : positionOf (fun ext => hashOf ext == ext_hash) blk = some i := by
      refine positionOf_eq_some _ blk i e he (by simp [hhash]) ?_
      intro j e' hj he'
      exact beq_eq_false_iff_ne.mpr (hmin j e' hj he')
    have hlist :
        ((((events.map (fun cs => (cs.block, changeSetRecords dec cs))).filter
          (fun p => p.1 == block_hash)).head?).elim [] (fun p => p.2)) =
        ((events.filter (fun cs => cs.block == block_hash)).head?).elim []
          (changeSetRecords dec) := by
      rw [blockEvents_comm]
      cases (events.filter (fun cs => cs.block == block_hash)).head? <;> rfl
    have hphi :
        (((events.filter (fun cs => cs.block == block_hash)).head?).elim []
          (changeSetRecords dec)).filterMap
          (fun r : EventRecord E H =>
            match r.phase with
            | .ApplyExtrinsic k => if k = i then some r.event else none
            | _ => none) =
        (((events.filter (fun cs => cs.block == block_hash)).head?).elim []
          (changeSetRecords dec)).filterMap
          (fun r => if r.phase = .ApplyExtrinsic i then some r.event else none) := by
      apply List.filterMap_congr
      intro r _
      cases hph : r.phase with
      | ApplyExtrinsic k => simp [hph]
      | Finalization => simp [hph]
    unfold wait_for_block_events
    simp only [hpos]
    rw [hlist, hphi]
  · intro cs hne
    unfold wait_for_block_events
    rw [List.map_cons,
      List.filter_cons_of_neg (by simpa using hne)]

/-- Witness for C1: a synthetic 3-transaction block whose event log tags
records for positions 0, 1 and 2; submitting the transaction at position 1
yields exactly the position-1 record, and a change-set for an unrelated block
arriving first is skipped. -/
theorem wait_for_block_events_resolution_witness :
    wait_for_block_events (fun ext => ext.headD 0) c1dec 20 [[10], [20], [30]] 7
      [⟨99, [([0], some [0, 1, 2])]⟩, ⟨7, [([0], some [0, 1, 2])]⟩] =
      .ok ⟨7, 20, [101]⟩ := by
  have hmin : ∀ j e', j < 1 → ([[10], [20], [30]] : List (List Nat))[j]? = some e' →
      (fun ext : List Nat => ext.headD 0) e' ≠ 20 := by
    intro j e' hj he'
    have hj0 : j = 0 := by omega
    subst hj0
    simp only [List.getElem?_cons_zero, Option.some.injEq] at he'
    rw [← he']
    decide
  have h := (wait_for_block_events_resolution (fun ext => ext.headD 0) c1dec 20
      [[10], [20], [30]] 7
      [⟨99, [([0], some [0, 1, 2])]⟩, ⟨7, [([0], some [0, 1, 2])]⟩]).2.1 1 [20]
      rfl rfl hmin
  exact h.trans (by rfl)

end Subxt
